import Mathlib

/-!
Verification development for the Cube_Engine repository
(`src/Cube_Engine/main.js` and the demo variant `src/unnamed/part_000`).

The JavaScript sources are shallowly embedded: JS numbers are modelled as
exact rationals (`ℚ`), three.js scene objects become the inductive `Node`
tree (material, children, position/rotation/scale), mutation becomes
functional update, and statements that can throw a `TypeError`
(reading a property of `undefined`, e.g. an out-of-range child index or a
missing `material`) are modelled in the `Option` monad, `none` being the
thrown-exception outcome.
-/

namespace CubeEngine

/-- Stencil compare functions used by the sources
(`THREE.AlwaysStencilFunc`, `THREE.EqualStencilFunc`). -/
inductive StencilFunc where
  | alwaysFunc
  | equalFunc
deriving DecidableEq, Repr

/-- Stencil z-pass operations used by the sources
(`THREE.KeepStencilOp` is the three.js default, `THREE.ReplaceStencilOp`
is set by `createMat`). -/
inductive StencilOp where
  | keepOp
  | replaceOp
deriving DecidableEq, Repr

/-- The material fields the sources read or write. -/
structure Material where
  color : String
  stencilWrite : Bool
  stencilRef : Int
  stencilFunc : StencilFunc
  stencilZPass : StencilOp
  colorWrite : Bool
  depthWrite : Bool
deriving DecidableEq, Repr

/-- `new THREE.MeshPhongMaterial({color: c})`: a fresh material with the
three.js `Material` defaults for every field the sources touch
(stencilWrite=false, stencilRef=0, stencilFunc=Always, stencilZPass=Keep,
colorWrite=true, depthWrite=true).  The rendering library is an external
collaborator; only these defaults are relied on. -/
def meshPhongMaterial (c : String) : Material :=
  { color := c
    stencilWrite := false
    stencilRef := 0
    stencilFunc := .alwaysFunc
    stencilZPass := .keepOp
    colorWrite := true
    depthWrite := true }

/-- `createMat(needStencil, referenceNum, pColor, objColor)` from
`main.js` lines 24-42 (identical in `part_000`). -/
def createMat (needStencil : Bool) (referenceNum : Int)
    (pColor objColor : String) : Material :=
  if needStencil then
    { meshPhongMaterial pColor with
        stencilWrite := true
        stencilRef := referenceNum
        stencilFunc := .alwaysFunc
        stencilZPass := .replaceOp
        colorWrite := false
        depthWrite := false }
  else
    { meshPhongMaterial objColor with
        stencilWrite := true
        stencilRef := referenceNum
        stencilFunc := .equalFunc }

/-- A 3-component vector (JS numbers as exact rationals). -/
structure Vec3 where
  x : ℚ
  y : ℚ
  z : ℚ
deriving DecidableEq, Repr

def vZero : Vec3 := ⟨0, 0, 0⟩

/-- A three.js scene object as the sources use it: an optional mesh
material, a list of child nodes, and position/rotation/scale vectors. -/
inductive Node where
  | mk (material : Option Material) (children : List Node)
       (position rotation scale : Vec3)

def Node.material : Node → Option Material
  | .mk m _ _ _ _ => m

def Node.children : Node → List Node
  | .mk _ c _ _ _ => c

def Node.position : Node → Vec3
  | .mk _ _ p _ _ => p

def Node.rotation : Node → Vec3
  | .mk _ _ _ r _ => r

def Node.scale : Node → Vec3
  | .mk _ _ _ _ s => s

def Node.setMaterial : Node → Option Material → Node
  | .mk _ c p r s, m => .mk m c p r s

def Node.setChildren : Node → List Node → Node
  | .mk m _ p r s, c => .mk m c p r s

def Node.setPosition : Node → Vec3 → Node
  | .mk m c _ r s, p => .mk m c p r s

def Node.setRotation : Node → Vec3 → Node
  | .mk m c p _ s, r => .mk m c p r s

def Node.setScale : Node → Vec3 → Node
  | .mk m c p r _, s => .mk m c p r s

/-- Replace child `i` of a node (functional image of mutating
`n.children[i]`). -/
def Node.updChild (n : Node) (i : ℕ) (c : Node) : Node :=
  n.setChildren (n.children.set i c)

/-- `loadModel(path, needStencil, refNum)` from `main.js` lines 195-220
(identical in `part_000` lines 181-206), from the point where
`object = data.scene.children[0]` has been extracted: the argument
`object` is that top-level node (fetching/parsing the `.gltf` file is the
external loader's job).  Every child-index and `.material` access that
would throw a `TypeError` on `undefined` is an `Option` bind; reaching
`none` models the thrown exception (the rejected promise). -/
def loadModel (object : Node) (needStencil : Bool) (refNum : Int) :
    Option Node :=
  if needStencil then do
    let c0 ← object.children[0]?
    if c0.children.length ≠ 0 then do
      -- compound shape: object.children[0] itself has children
      let c00 ← c0.children[0]?
      let m00 ← c00.material
      let object1 := object.updChild 0
        (c0.updChild 0 (c00.setMaterial (some { m00 with
          stencilWrite := true
          stencilRef := refNum
          stencilFunc := .equalFunc })))
      -- object.children[2].children[0].material.stencilWrite = true
      let c2 ← object1.children[2]?
      let c20 ← c2.children[0]?
      let m20 ← c20.material
      let object2 := object1.updChild 2
        (c2.updChild 0 (c20.setMaterial (some { m20 with
          stencilWrite := true })))
      -- object.children[2].children[2].material.stencilRef = refNum
      -- object.children[2].children[2].material.stencilFunc = Equal
      let c2b ← object2.children[2]?
      let c22 ← c2b.children[2]?
      let m22 ← c22.material
      some (object2.updChild 2
        (c2b.updChild 2 (c22.setMaterial (some { m22 with
          stencilRef := refNum
          stencilFunc := .equalFunc }))))
    else do
      -- simple shape: tag the first direct child's material
      let m0 ← c0.material
      some (object.updChild 0 (c0.setMaterial (some { m0 with
        stencilWrite := true
        stencilRef := refNum
        stencilFunc := .equalFunc })))
  else
    some object

/-- Characterisation, written from the claim/spec words, of the node
shapes on which the stencil-tagging walk of `loadModel` stays in bounds:
either the first child exists, has no children and has a material
(the "simple" shape), or the first child has children, its child 0 has a
material, and the node has a third child (index 2) whose children at
indices 0 and 2 both exist and have materials.  To be compared with the
source-derived walk (`loadModel`), not derived from it. -/
def stencilShapeOK (object : Node) : Bool :=
  match object.children[0]? with
  | none => false
  | some c0 =>
    if c0.children.length ≠ 0 then
      (match c0.children[0]? with
       | some c00 => c00.material.isSome
       | none => false) &&
      (match object.children[2]? with
       | some c2 =>
         (match c2.children[0]? with
          | some c20 => c20.material.isSome
          | none => false) &&
         (match c2.children[2]? with
          | some c22 => c22.material.isSome
          | none => false)
       | none => false)
    else
      c0.material.isSome

/-- Default node used by `List.getD`; JS would yield `undefined` for an
out-of-range index, but every loop below indexes within bounds, so this
default is never actually read. -/
def nodeDefault : Node := .mk none [] vZero vZero vZero

/-- The module-level assembler state of `main.js`.

Modelled from the spec: the declarations of the Face Collections
(`rings`, `triangles`, `blocks`, `bars`, `diamonds`, `hexagons`) are not
present in `src/` (main.js only uses them); spec §3 describes them as
ordered sequences, created empty during setup and populated once, with
the right face split into three independently-moving groups
(`bars[0]`, `bars[1]`, `bars[2]`). -/
structure Assembly where
  sceneNodes : List Node
  rings : List Node
  triangles : List Node
  blocks : List Node
  bars : List (List Node)
  diamonds : List Node
  hexagons : List Node
  blockVar : Option Node
  planet : Option Node

/-- Initial assembler state (all collections empty, three bar groups). -/
def Assembly.init : Assembly :=
  ⟨[], [], [], [], [[], [], []], [], [], none, none⟩

/-- Ascending `for (let i = start; i < start+count; i++)` loop over a
fallible body, in the `Option` monad. -/
def loopUp {σ : Type} (f : ℕ → σ → Option σ) : ℕ → ℕ → σ → Option σ
  | _, 0, st => some st
  | i, k+1, st => (f i st).bind (loopUp f (i+1) k)

/-- Iteration `i` of the `j = 0` ring loop of `loadFrontFace`
(`main.js` lines 227-234).  `fetch` stands for the external gltf
fetch+parse (it yields the top-level scene node for a path), `piVal`
models the constant `Math.PI` (only ever stored in rotation fields,
never branched on).  JS mutates the node after `scene.add`/`push`;
sharing is modelled by appending the final mutated value of each
iteration. -/
def frontRingIterA (fetch : String → Node) (piVal : ℚ) (i : ℕ)
    (st : Assembly) : Option Assembly := do
  let lip ← loadModel (fetch "models/ring.gltf") true 2
  let l1 := lip.setScale ⟨0 + (i:ℚ), 0 + (i:ℚ), 0 + (i:ℚ)⟩
  let l2 := l1.setRotation { l1.rotation with z := piVal/2 }
  let l3 := l2.setPosition { l2.position with x := (-(i:ℚ)/3) * (i:ℚ) }
  some { st with sceneNodes := st.sceneNodes ++ [l3],
                 rings := st.rings ++ [l3] }

/-- Iteration `i` of the `j = 1` ring loop (`main.js` lines 236-243). -/
def frontRingIterB (fetch : String → Node) (piVal : ℚ) (i : ℕ)
    (st : Assembly) : Option Assembly := do
  let lip ← loadModel (fetch "models/ring.gltf") true 2
  let l1 := lip.setScale ⟨0 + (i:ℚ), 0 + (i:ℚ), 0 + (i:ℚ)⟩
  let l2 := l1.setRotation { l1.rotation with z := -(piVal/2) }
  let l3 := l2.setPosition { l2.position with x := ((i:ℚ)/3) * (i:ℚ) }
  some { st with sceneNodes := st.sceneNodes ++ [l3],
                 rings := st.rings ++ [l3] }

/-- Iteration `i` of the `j = 2` ring loop (`main.js` lines 245-252). -/
def frontRingIterC (fetch : String → Node) (piVal : ℚ) (i : ℕ)
    (st : Assembly) : Option Assembly := do
  let lip ← loadModel (fetch "models/ring.gltf") true 2
  let l1 := lip.setScale ⟨2 + (i:ℚ), 2 + (i:ℚ), 2 + (i:ℚ)⟩
  let l2 := l1.setRotation { l1.rotation with x := piVal/2 }
  let l3 := l2.setPosition { l2.position with z := (-(i:ℚ)/3) * (i:ℚ) }
  some { st with sceneNodes := st.sceneNodes ++ [l3],
                 rings := st.rings ++ [l3] }

/-- Body of the outer `j` loop of `loadFrontFace`
(`main.js` lines 225-254). -/
def frontBody (fetch : String → Node) (piVal : ℚ) (j : ℕ)
    (st : Assembly) : Option Assembly :=
  if j = 0 then loopUp (frontRingIterA fetch piVal) 0 10 st
  else if j = 1 then loopUp (frontRingIterB fetch piVal) 0 10 st
  else loopUp (frontRingIterC fetch piVal) 0 10 st

/-- `loadFrontFace()` from `main.js` lines 222-255. -/
def loadFrontFace (fetch : String → Node) (piVal : ℚ) (st : Assembly) :
    Option Assembly := do
  let block ← loadModel (fetch "models/filledCube.gltf") true 2
  let st1 : Assembly := { st with
    sceneNodes := st.sceneNodes ++ [block], blockVar := some block }
  loopUp (frontBody fetch piVal) 0 3 st1

/-- Loop body of `loadBackFace` (`main.js` lines 266-272). -/
def backIter (fetch : String → Node) (i : ℕ) (st : Assembly) :
    Option Assembly := do
  let frame ← loadModel (fetch "models/triangle.gltf") true 5
  let f1 := frame.setScale ⟨6 - (i:ℚ)/4, 6 - (i:ℚ)/4, 1⟩
  let f2 := f1.setPosition ⟨0, 0, -2.5⟩
  some { st with sceneNodes := st.sceneNodes ++ [f2],
                 triangles := st.triangles ++ [f2] }

/-- `loadBackFace()` from `main.js` lines 265-273. -/
def loadBackFace (fetch : String → Node) (st : Assembly) :
    Option Assembly :=
  loopUp (backIter fetch) 0 20 st

/-- Inner loop body of `loadLeftFace` (`main.js` lines 288-293). -/
def leftInner (fetch : String → Node) (i j : ℕ) (st : Assembly) :
    Option Assembly := do
  let block ← loadModel (fetch "models/filledCube.gltf") true 3
  let b1 := block.setPosition ⟨(i:ℚ) - 1.5, -1, -2 + (j:ℚ)⟩
  some { st with blocks := st.blocks ++ [b1],
                 sceneNodes := st.sceneNodes ++ [b1] }

/-- `loadLeftFace()` from `main.js` lines 286-295. -/
def loadLeftFace (fetch : String → Node) (st : Assembly) :
    Option Assembly :=
  loopUp (fun i st => loopUp (leftInner fetch i) 0 5 st) 0 5 st

/-- Inner loop body of `loadRightFace` (`main.js` lines 310-314);
`bars[i].push(bar)` reads group `i` (a `TypeError` if absent, hence the
`Option` bind). -/
def rightInner (fetch : String → Node) (i : ℕ) (_j : ℕ) (st : Assembly) :
    Option Assembly := do
  let bar ← loadModel (fetch "models/test.gltf") true 4
  let g ← st.bars[i]?
  some { st with bars := st.bars.set i (g ++ [bar]),
                 sceneNodes := st.sceneNodes ++ [bar] }

/-- `loadRightFace()` from `main.js` lines 308-316. -/
def loadRightFace (fetch : String → Node) (st : Assembly) :
    Option Assembly :=
  loopUp (fun i st => loopUp (rightInner fetch i) 0 4 st) 0 3 st

/-- Hexagon loop body of `loadTopFace` (`main.js` lines 357-362); the
loop both pushes each hexagon and attaches it as a child of the diamond,
so the loop state carries the diamond alongside the collections. -/
def topHexIter (fetch : String → Node) (_i : ℕ) (p : Assembly × Node) :
    Option (Assembly × Node) := do
  let hexagon ← loadModel (fetch "models/hexagon.gltf") true 6
  let h1 := hexagon.setScale ⟨5, 5, 5⟩
  some ({ p.1 with hexagons := p.1.hexagons ++ [h1] },
        p.2.setChildren (p.2.children ++ [h1]))

/-- `loadTopFace()` from `main.js` lines 355-366. -/
def loadTopFace (fetch : String → Node) (st : Assembly) :
    Option Assembly := do
  let diamond ← loadModel (fetch "models/diamond.gltf") true 6
  let p ← loopUp (topHexIter fetch) 0 8 (st, diamond)
  let d1 := p.2.setScale ⟨2, 2, 2⟩
  some { p.1 with diamonds := p.1.diamonds ++ [d1],
                  sceneNodes := p.1.sceneNodes ++ [d1] }

/-- `loadBottomFace()` from `main.js` lines 382-395: loads the planet,
then tags `planet.children[1].children[0]` and
`planet.children[1].children[1]` by hand. -/
def loadBottomFace (fetch : String → Node) (st : Assembly) :
    Option Assembly := do
  let planet ← loadModel (fetch "models/lilPineTreePlanet.gltf") true 7
  let p1 := planet.setScale ⟨2, 2, 2⟩
  let c1 ← p1.children[1]?
  let c10 ← c1.children[0]?
  let m10 ← c10.material
  let p2 := p1.updChild 1 (c1.updChild 0 (c10.setMaterial (some { m10 with
    stencilWrite := true, stencilRef := 7, stencilFunc := .equalFunc })))
  let c1b ← p2.children[1]?
  let c11 ← c1b.children[1]?
  let m11 ← c11.material
  let p3 := p2.updChild 1 (c1b.updChild 1 (c11.setMaterial (some { m11 with
    stencilWrite := true, stencilRef := 7, stencilFunc := .equalFunc })))
  some { st with planet := some p3, sceneNodes := st.sceneNodes ++ [p3] }

/-- The six face-loading routines of `build_with_custom_models` (the
`Promise.all` batch, `main.js` line 177), composed in list order.  The
single-threaded event loop interleaves the routines' completions, but
each routine appends only to its own collections, so every interleaving
yields the same per-collection contents as this sequential composition;
`none` models any routine rejecting. -/
def runAllFaces (fetch : String → Node) (piVal : ℚ) : Option Assembly := do
  let s1 ← loadFrontFace fetch piVal Assembly.init
  let s2 ← loadLeftFace fetch s1
  let s3 ← loadRightFace fetch s2
  let s4 ← loadBackFace fetch s3
  let s5 ← loadTopFace fetch s4
  loadBottomFace fetch s5

/-- Lines 170-174 of `main.js`: load the cube frame with
`loadModel(path, true, 1)`, then
`impossibleCube.children[0].material.stencilWrite = false`,
`scene.add`, and `impossibleCube.scale.set(2,2,2)`. -/
def cubeFramePostLoad (object : Node) : Option Node := do
  let ic ← loadModel object true 1
  let c0 ← ic.children[0]?
  let m ← c0.material
  let ic2 := ic.updChild 0 (c0.setMaterial (some { m with
    stencilWrite := false }))
  some (ic2.setScale ⟨2, 2, 2⟩)

/-- The six cube faces. -/
inductive Face where
  | front | back | left | right | top | bottom
deriving DecidableEq, Repr

/-- Observable events of the asynchronous build phase
(`build_with_custom_models` and `render`, `main.js` lines 131-193):
the root cube frame finishing its load, the root being added to the
scene, one event per `loadModel` completion inside a face routine, a
face routine resolving, and the first `render()` invocation. -/
inductive BuildEv where
  | rootLoaded
  | rootAdded
  | faceLoad (f : Face)
  | faceDone (f : Face)
  | renderStart
deriving DecidableEq, Repr

/-- Number of `loadModel` calls each face routine performs
(front: 1 block + 3×10 rings; back: 20; left: 5×5; right: 3×4;
top: 1 diamond + 8 hexagons; bottom: 1). -/
def faceLoadCount : Face → ℕ
  | .front => 31
  | .back => 20
  | .left => 25
  | .right => 12
  | .top => 9
  | .bottom => 1

/-- The event sequence one face routine emits while it runs. -/
def faceTask (f : Face) : List BuildEv :=
  List.replicate (faceLoadCount f) (.faceLoad f) ++ [.faceDone f]

/-- The `Promise.all` batch, in source order
(`loadFrontFace(), loadLeftFace(), loadRightFace(), loadBackFace(),
loadTopFace(), loadBottomFace()`). -/
def allFaceTasks : List (List BuildEv) :=
  [faceTask .front, faceTask .left, faceTask .right,
   faceTask .back, faceTask .top, faceTask .bottom]

/-- Single-threaded cooperative scheduler: while any task is unfinished,
the schedule picks one of the live (non-empty) tasks and its next event
is emitted.  With fuel at least the total number of pending events,
every task is driven to completion — this is the `Promise.all` barrier. -/
def runTasks : ℕ → (ℕ → ℕ) → List (List BuildEv) → List BuildEv
  | 0, _, _ => []
  | fuel+1, sched, tasks =>
    let live := tasks.filter (fun t => !t.isEmpty)
    match live[sched fuel % live.length]? with
    | some (e :: rest) =>
      e :: runTasks fuel sched (live.set (sched fuel % live.length) rest)
    | _ => []

/-- Total number of build events the six face routines emit. -/
def totalFuel : ℕ := (allFaceTasks.map List.length).sum

/-- The event trace of one run of `build_with_custom_models` under a
given completion schedule: `await loadModel(cubeFrame)` and `scene.add`
come first and synchronously (lines 170-174), then the six face routines
run to completion in any interleaving (`await Promise.all`, line 177),
then `render()` starts (line 180). -/
def buildTrace (sched : ℕ → ℕ) : List BuildEv :=
  .rootLoaded :: .rootAdded ::
    (runTasks totalFuel sched allFaceTasks ++ [.renderStart])

/-- One frame of `animateBackFace()` (`main.js` lines 274-284) acting on
the module state (the `triangles` collection and `direction`,
line 96: `let direction = 1`).  Iteration `i` advances triangle `i`'s
z-position by `i/300*direction` and z-rotation by `i/1000*direction`,
then re-reads the last triangle's z-position and possibly flips
`direction`. -/
structure BackState where
  triangles : List Node
  direction : ℚ

/-- The last triangle's z-position (`triangles[triangles.length-1].position.z`). -/
def lastZ (s : BackState) : ℚ :=
  (s.triangles.getD (s.triangles.length - 1) nodeDefault).position.z

/-- Loop body of `animateBackFace` for index `i`. -/
def backStep (s : BackState) (i : ℕ) : BackState :=
  let t := s.triangles.getD i nodeDefault
  let t1 := t.setPosition { t.position with
    z := t.position.z + (i:ℚ)/300 * s.direction }
  let t2 := t1.setRotation { t1.rotation with
    z := t1.rotation.z + (i:ℚ)/1000 * s.direction }
  let tris1 := s.triangles.set i t2
  let zl := (tris1.getD (tris1.length - 1) nodeDefault).position.z
  ⟨tris1, if zl > 25 then -4 else if zl < -8.5 then 1 else s.direction⟩

/-- `animateBackFace()`: the full `for` loop over the collection. -/
def animateBackFace (s : BackState) : BackState :=
  (List.range s.triangles.length).foldl backStep s

/-- The direction update read off the source's two-branch conditional. -/
def flipDir (z d : ℚ) : ℚ :=
  if z > 25 then -4 else if z < -8.5 then 1 else d

/-- The induced dynamics of `(lastZ, direction)` for a 20-triangle
collection: one stale flip (iterations 0..18 re-check the last
triangle's unchanged position), the last triangle's move by
`19/300 * direction`, then the flip on the new position. -/
def zdStep (p : ℚ × ℚ) : ℚ × ℚ :=
  let d1 := flipDir p.1 p.2
  let z1 := p.1 + 19/300 * d1
  (z1, flipDir z1 d1)

/-- `animateLeftFace()` from `main.js` lines 296-306.  The three draws
`int = Math.floor(Math.random()*4)`,
`factor = Math.floor(Math.random()*10)/3` and
`index = Math.floor(Math.random()*25)` enter as the integer parameters
`intDraw ∈ [0,4)`, `factorDraw ∈ [0,10)` and `indexDraw ∈ [0,25)`;
`blocks[index]` is an `Option` bind (a `TypeError` when out of range). -/
def animateLeftFace (blocks : List Node)
    (intDraw factorDraw indexDraw : ℕ) : Option (List Node) := do
  let factor : ℚ := (factorDraw : ℚ) / 3
  let b ← blocks[indexDraw]?
  let b1 :=
    if intDraw % 2 ≠ 0 then
      (b.setPosition { b.position with y := (intDraw:ℚ) * (-1) }).setScale
        ⟨factor, factor, factor⟩
    else
      b.setPosition { b.position with y := (intDraw:ℚ) }
  some (blocks.set indexDraw b1)

/-! Concrete inputs used by witnesses and by the `loadModel` evaluation
at the compound shape. -/

/-- A leaf mesh node carrying a material. -/
def leafNode (m : Material) : Node := .mk (some m) [] vZero vZero vZero

/-- A fresh default material. -/
def defMat : Material := meshPhongMaterial "white"

/-- A model whose first child is a simple mesh and whose second child
groups two meshes (as `loadBottomFace` expects of the planet model). -/
def simpleFetchNode : Node :=
  .mk none
    [leafNode defMat,
     .mk none [leafNode defMat, leafNode defMat] vZero vZero vZero]
    vZero vZero vZero

/-- A loader stub resolving every path to `simpleFetchNode`. -/
def constFetch : String → Node := fun _ => simpleFetchNode

/-- A top-level node of the "compound" shape: its first child has a
child, and its third child has three mesh children. -/
def compoundObj : Node :=
  .mk none
    [.mk none [leafNode defMat] vZero vZero vZero,
     leafNode defMat,
     .mk none [leafNode defMat, leafNode defMat, leafNode defMat]
       vZero vZero vZero]
    vZero vZero vZero

/-- A top-level node of the "simple" shape. -/
def simpleObj : Node := .mk none [leafNode defMat] vZero vZero vZero

/-- Material found at a child-index path of a node. -/
def childMat : Node → List ℕ → Option Material
  | n, [] => n.material
  | n, i :: rest => (n.children[i]?).bind (fun c => childMat c rest)

/-- The state of the back-face collection right after `loadBackFace`:
twenty triangles at z = -2.5, and `direction = 1` (line 96). -/
def backInit : BackState :=
  ⟨List.replicate 20 (Node.mk none [] ⟨0, 0, -2.5⟩ vZero ⟨6, 6, 1⟩), 1⟩

/-- What `loadModel` is supposed to do to a "simple"-shaped node, stated
observationally: the top node's own material, transforms and all
children other than the first are untouched, and the first child keeps
everything but its material, which carries the stencil tag. -/
def simpleTagged (object c0 : Node) (m : Material) (refNum : Int)
    (object' : Node) : Prop :=
  object'.material = object.material
  ∧ object'.position = object.position
  ∧ object'.rotation = object.rotation
  ∧ object'.scale = object.scale
  ∧ object'.children.length = object.children.length
  ∧ (∀ j : ℕ, j ≠ 0 → object'.children[j]? = object.children[j]?)
  ∧ ∃ c0', object'.children[0]? = some c0'
      ∧ c0'.material = some { m with
          stencilWrite := true, stencilRef := refNum,
          stencilFunc := .equalFunc }
      ∧ c0'.children = c0.children
      ∧ c0'.position = c0.position
      ∧ c0'.rotation = c0.rotation
      ∧ c0'.scale = c0.scale

/-- Effect of the post-load lines on the loaded cube frame `ic`: the
first child's material ends with `stencilWrite = false` and nothing else
about the node changes except the final `scale.set(2,2,2)`. -/
def cubeFramed (ic c0 : Node) (m : Material) (r : Node) : Prop :=
  r.material = ic.material
  ∧ r.position = ic.position
  ∧ r.rotation = ic.rotation
  ∧ r.scale = ⟨2, 2, 2⟩
  ∧ r.children.length = ic.children.length
  ∧ (∀ j : ℕ, j ≠ 0 → r.children[j]? = ic.children[j]?)
  ∧ ∃ c0', r.children[0]? = some c0'
      ∧ c0'.material = some { m with stencilWrite := false }
      ∧ (c0'.material.map Material.stencilWrite = some false)
      ∧ c0'.children = c0.children
      ∧ c0'.position = c0.position
      ∧ c0'.rotation = c0.rotation
      ∧ c0'.scale = c0.scale

/-- `defMat` as `loadModel(_, true, 1)` leaves it on a tagged slot. -/
def tagMat1 : Material :=
  { defMat with
      stencilWrite := true
      stencilRef := 1
      stencilFunc := .equalFunc }

/-- The cube frame node the C8 witness loads (the `loadModel` output on
`simpleObj` with reference 1). -/
def cubeLoadedWitness : Node :=
  .mk none [leafNode tagMat1] vZero vZero vZero

end CubeEngine

namespace CubeEngine

/-! Basic accessor lemmas for the functional `Node` updates. -/

@[simp] theorem material_setMaterial (n : Node) (m : Option Material) :
    (n.setMaterial m).material = m := by cases n; rfl

@[simp] theorem children_setMaterial (n : Node) (m : Option Material) :
    (n.setMaterial m).children = n.children := by cases n; rfl

@[simp] theorem position_setMaterial (n : Node) (m : Option Material) :
    (n.setMaterial m).position = n.position := by cases n; rfl

@[simp] theorem rotation_setMaterial (n : Node) (m : Option Material) :
    (n.setMaterial m).rotation = n.rotation := by cases n; rfl

@[simp] theorem scale_setMaterial (n : Node) (m : Option Material) :
    (n.setMaterial m).scale = n.scale := by cases n; rfl

@[simp] theorem material_setChildren (n : Node) (c : List Node) :
    (n.setChildren c).material = n.material := by cases n; rfl

@[simp] theorem children_setChildren (n : Node) (c : List Node) :
    (n.setChildren c).children = c := by cases n; rfl

@[simp] theorem position_setChildren (n : Node) (c : List Node) :
    (n.setChildren c).position = n.position := by cases n; rfl

@[simp] theorem rotation_setChildren (n : Node) (c : List Node) :
    (n.setChildren c).rotation = n.rotation := by cases n; rfl

@[simp] theorem scale_setChildren (n : Node) (c : List Node) :
    (n.setChildren c).scale = n.scale := by cases n; rfl

@[simp] theorem material_setPosition (n : Node) (v : Vec3) :
    (n.setPosition v).material = n.material := by cases n; rfl

@[simp] theorem children_setPosition (n : Node) (v : Vec3) :
    (n.setPosition v).children = n.children := by cases n; rfl

@[simp] theorem position_setPosition (n : Node) (v : Vec3) :
    (n.setPosition v).position = v := by cases n; rfl

@[simp] theorem rotation_setPosition (n : Node) (v : Vec3) :
    (n.setPosition v).rotation = n.rotation := by cases n; rfl

@[simp] theorem scale_setPosition (n : Node) (v : Vec3) :
    (n.setPosition v).scale = n.scale := by cases n; rfl

@[simp] theorem material_setRotation (n : Node) (v : Vec3) :
    (n.setRotation v).material = n.material := by cases n; rfl

@[simp] theorem children_setRotation (n : Node) (v : Vec3) :
    (n.setRotation v).children = n.children := by cases n; rfl

@[simp] theorem position_setRotation (n : Node) (v : Vec3) :
    (n.setRotation v).position = n.position := by cases n; rfl

@[simp] theorem rotation_setRotation (n : Node) (v : Vec3) :
    (n.setRotation v).rotation = v := by cases n; rfl

@[simp] theorem scale_setRotation (n : Node) (v : Vec3) :
    (n.setRotation v).scale = n.scale := by cases n; rfl

@[simp] theorem material_setScale (n : Node) (v : Vec3) :
    (n.setScale v).material = n.material := by cases n; rfl

@[simp] theorem children_setScale (n : Node) (v : Vec3) :
    (n.setScale v).children = n.children := by cases n; rfl

@[simp] theorem position_setScale (n : Node) (v : Vec3) :
    (n.setScale v).position = n.position := by cases n; rfl

@[simp] theorem rotation_setScale (n : Node) (v : Vec3) :
    (n.setScale v).rotation = n.rotation := by cases n; rfl

@[simp] theorem scale_setScale (n : Node) (v : Vec3) :
    (n.setScale v).scale = v := by cases n; rfl

@[simp] theorem material_updChild (n : Node) (i : ℕ) (c : Node) :
    (n.updChild i c).material = n.material := by
  simp [Node.updChild]

@[simp] theorem position_updChild (n : Node) (i : ℕ) (c : Node) :
    (n.updChild i c).position = n.position := by
  simp [Node.updChild]

@[simp] theorem rotation_updChild (n : Node) (i : ℕ) (c : Node) :
    (n.updChild i c).rotation = n.rotation := by
  simp [Node.updChild]

@[simp] theorem scale_updChild (n : Node) (i : ℕ) (c : Node) :
    (n.updChild i c).scale = n.scale := by
  simp [Node.updChild]

@[simp] theorem children_updChild (n : Node) (i : ℕ) (c : Node) :
    (n.updChild i c).children = n.children.set i c := by
  simp [Node.updChild]

/-- C10: `createMat(needStencil, referenceNum, pColor, objColor)` always
returns a material with `stencilWrite = true` and
`stencilRef = referenceNum`; with `needStencil = true` it additionally
has `stencilFunc = Always`, `stencilZPass = Replace`,
`colorWrite = false` and `depthWrite = false`; with
`needStencil = false` it has `stencilFunc = Equal` and color/depth
writes left at their enabled defaults. -/
theorem createMat_stencil_fields (referenceNum : Int)
    (pColor objColor : String) :
    ((createMat true referenceNum pColor objColor).stencilWrite = true
      ∧ (createMat true referenceNum pColor objColor).stencilRef
          = referenceNum
      ∧ (createMat true referenceNum pColor objColor).stencilFunc
          = .alwaysFunc
      ∧ (createMat true referenceNum pColor objColor).stencilZPass
          = .replaceOp
      ∧ (createMat true referenceNum pColor objColor).colorWrite = false
      ∧ (createMat true referenceNum pColor objColor).depthWrite = false)
    ∧ ((createMat false referenceNum pColor objColor).stencilWrite = true
      ∧ (createMat false referenceNum pColor objColor).stencilRef
          = referenceNum
      ∧ (createMat false referenceNum pColor objColor).stencilFunc
          = .equalFunc
      ∧ (createMat false referenceNum pColor objColor).colorWrite = true
      ∧ (createMat false referenceNum pColor objColor).depthWrite
          = true) := by
  simp [createMat, meshPhongMaterial]

/-- C6: `loadModel(path, needStencil=false, refNum)` returns the
extracted top-level node exactly as it was: no material, transform or
child is touched. -/
theorem loadModel_no_stencil_identity (object : Node) (refNum : Int) :
    loadModel object false refNum = some object := rfl

/-- C5: on a "simple"-shaped node (first child exists, has no children
and has a material), `loadModel(path, true, refNum)` tags exactly one
material slot — the first direct child's — with
`stencilWrite = true`, `stencilRef = refNum`, `stencilFunc = Equal`,
and touches nothing else. -/
theorem loadModel_simple_tags_one (object c0 : Node) (m : Material)
    (refNum : Int) (h0 : object.children[0]? = some c0)
    (hc : c0.children = []) (hm : c0.material = some m) :
    ∃ object', loadModel object true refNum = some object'
      ∧ simpleTagged object c0 m refNum object' := by
  have hlt : 0 < object.children.length :=
    (List.getElem?_eq_some_iff.mp h0).1
  refine ⟨object.updChild 0 (c0.setMaterial (some { m with
    stencilWrite := true, stencilRef := refNum,
    stencilFunc := .equalFunc })), ?_, ?_⟩
  · simp [loadModel, h0, hc, hm]
  · refine ⟨by simp, by simp, by simp, by simp, by simp, ?_, ?_⟩
    · intro j hj
      simp [List.getElem?_set_ne (Ne.symm hj)]
    · exact ⟨c0.setMaterial (some { m with
        stencilWrite := true, stencilRef := refNum,
        stencilFunc := .equalFunc }),
        by simp [List.getElem?_set_self hlt],
        by simp, by simp, by simp, by simp, by simp⟩

/-- Witness for C5 at a concrete simple-shaped node. -/
theorem loadModel_simple_tags_one_witness :
    simpleObj.children[0]? = some (leafNode defMat)
    ∧ (leafNode defMat).children = []
    ∧ (leafNode defMat).material = some defMat
    ∧ ∃ object', loadModel simpleObj true 9 = some object'
        ∧ simpleTagged simpleObj (leafNode defMat) defMat 9 object' :=
  ⟨rfl, rfl, rfl,
    loadModel_simple_tags_one simpleObj (leafNode defMat) defMat 9
      rfl rfl rfl⟩

/-- C1 (evaluation at the failing input): on a concrete compound-shaped
node with all-default materials, the stencil walk of
`loadModel(path, true, 5)` fully tags only `children[0].children[0]`;
it sets `stencilWrite` alone on `children[2].children[0]` and
`stencilRef`/`stencilFunc` alone on `children[2].children[2]` (whose
`stencilWrite` stays `false`), so only ONE slot ends up with
`referenceValue = 5`, `compareFunction = Equal` and stencil write
enabled, and two assignments are left incomplete — not the two complete
slots the claim states. -/
theorem loadModel_compound_split_tagging :
    (loadModel compoundObj true 5).bind (fun r => childMat r [0, 0])
      = some { defMat with
                 stencilWrite := true
                 stencilRef := 5
                 stencilFunc := .equalFunc }
    ∧ (loadModel compoundObj true 5).bind (fun r => childMat r [2, 0])
      = some { defMat with stencilWrite := true }
    ∧ (loadModel compoundObj true 5).bind (fun r => childMat r [2, 2])
      = some { defMat with stencilRef := 5, stencilFunc := .equalFunc }
    ∧ ((loadModel compoundObj true 5).bind
        (fun r => childMat r [2, 2])).map Material.stencilWrite
      = some false
    ∧ (loadModel compoundObj true 5).bind (fun r => childMat r [2, 1])
      = some defMat := by
  decide

set_option maxHeartbeats 1600000 in
/-- C9: the stencil-tagging walk of `loadModel(path, true, refNum)`
performs only in-bounds child and material accesses precisely on the two
anticipated shapes (the `stencilShapeOK` characterisation written from
the claim); on every other shape the walk hits the error branch of the
`Option` indexing. -/
theorem loadModel_inbounds_iff (object : Node) (refNum : Int) :
    (loadModel object true refNum).isSome = true
      ↔ stencilShapeOK object = true := by
  cases h0 : object.children[0]? with
  | none => simp [loadModel, stencilShapeOK, h0]
  | some c0 =>
    by_cases hlen : c0.children.length = 0
    · cases hm0 : c0.material with
      | none => simp [loadModel, stencilShapeOK, h0, hlen, hm0]
      | some m0 => simp [loadModel, stencilShapeOK, h0, hlen, hm0]
    · cases h00 : c0.children[0]? with
      | none => simp [loadModel, stencilShapeOK, h0, hlen, h00]
      | some c00 =>
        cases hm00 : c00.material with
        | none => simp [loadModel, stencilShapeOK, h0, hlen, h00, hm00]
        | some m00 =>
          have e2 : ∀ X : Node,
              (object.children.set 0 X)[2]? = object.children[2]? :=
            fun X => List.getElem?_set_ne (by omega)
          cases h2 : object.children[2]? with
          | none =>
            simp [loadModel, stencilShapeOK, h0, hlen, h00, hm00, e2, h2]
          | some c2 =>
            have h2lt : 2 < object.children.length :=
              (List.getElem?_eq_some_iff.mp h2).1
            have e2set : ∀ X Y : Node,
                ((object.children.set 0 X).set 2 Y)[2]? = some Y :=
              fun X Y => List.getElem?_set_self
                (by rw [List.length_set]; exact h2lt)
            have e20 : ∀ Y : Node,
                (c2.children.set 0 Y)[2]? = c2.children[2]? :=
              fun Y => List.getElem?_set_ne (by omega)
            cases h20 : c2.children[0]? with
            | none =>
              simp [loadModel, stencilShapeOK, h0, hlen, h00, hm00, e2,
                h2, h20]
            | some c20 =>
              cases hm20 : c20.material with
              | none =>
                simp [loadModel, stencilShapeOK, h0, hlen, h00, hm00, e2,
                  h2, h20, hm20]
              | some m20 =>
                cases h22 : c2.children[2]? with
                | none =>
                  simp [loadModel, stencilShapeOK, h0, hlen, h00, hm00,
                    e2, h2, h20, hm20, e2set, e20, h22]
                | some c22 =>
                  cases hm22 : c22.material with
                  | none =>
                    simp [loadModel, stencilShapeOK, h0, hlen, h00, hm00,
                      e2, h2, h20, hm20, e2set, e20, h22, hm22]
                  | some m22 =>
                    simp [loadModel, stencilShapeOK, h0, hlen, h00, hm00,
                      e2, h2, h20, hm20, e2set, e20, h22, hm22]

/-- C8: after `impossibleCube = await loadModel("./models/cubeFrame.gltf",
true, 1)` the line `impossibleCube.children[0].material.stencilWrite =
false` leaves the first child's material with `stencilWrite = false`
(overriding the stencil-write enabling done during loading), and that
single sub-part is the only thing the assignment changes: every other
child, and every other field of the first child, keeps its as-loaded
value. -/
theorem cubeFrame_override (object ic c0 : Node) (m : Material)
    (hl : loadModel object true 1 = some ic)
    (h0 : ic.children[0]? = some c0)
    (hm : c0.material = some m) :
    ∃ r, cubeFramePostLoad object = some r ∧ cubeFramed ic c0 m r := by
  have hlt : 0 < ic.children.length :=
    (List.getElem?_eq_some_iff.mp h0).1
  refine ⟨(ic.updChild 0 (c0.setMaterial (some { m with
      stencilWrite := false }))).setScale ⟨2, 2, 2⟩, ?_, ?_⟩
  · simp [cubeFramePostLoad, hl, h0, hm]
  · refine ⟨by simp, by simp, by simp, by simp, by simp, ?_, ?_⟩
    · intro j hj
      simp [List.getElem?_set_ne (Ne.symm hj)]
    · exact ⟨c0.setMaterial (some { m with stencilWrite := false }),
        by simp [List.getElem?_set_self hlt],
        by simp, by simp, by simp, by simp, by simp, by simp⟩

/-- Witness for C8 at a concrete simple-shaped cube frame. -/
theorem cubeFrame_override_witness :
    loadModel simpleObj true 1 = some cubeLoadedWitness
    ∧ cubeLoadedWitness.children[0]? = some (leafNode tagMat1)
    ∧ (leafNode tagMat1).material = some tagMat1
    ∧ ∃ r, cubeFramePostLoad simpleObj = some r
        ∧ cubeFramed cubeLoadedWitness (leafNode tagMat1) tagMat1 r :=
  ⟨rfl, rfl, rfl,
    cubeFrame_override simpleObj cubeLoadedWitness (leafNode tagMat1)
      tagMat1 rfl rfl rfl⟩

/-- C7: one frame of `animateLeftFace` writes the transform of exactly
the one block selected by the index draw from `[0,25)`: on an odd draw
of the integer from `[0,4)` it sets that block's `position.y` to the
negated integer and rescales it uniformly by the factor draw; on an even
draw it sets `position.y` to the integer and leaves the scale alone; the
block's other transform components and every other block are unchanged. -/
theorem animateLeftFace_one_block (blocks : List Node)
    (intDraw factorDraw indexDraw : ℕ)
    (_hint : intDraw < 4) (hidx : indexDraw < blocks.length) :
    ∃ blocks',
      animateLeftFace blocks intDraw factorDraw indexDraw = some blocks'
      ∧ blocks'.length = blocks.length
      ∧ (∀ j : ℕ, j ≠ indexDraw → blocks'[j]? = blocks[j]?)
      ∧ ∃ b b', blocks[indexDraw]? = some b
          ∧ blocks'[indexDraw]? = some b'
          ∧ b'.material = b.material
          ∧ b'.children = b.children
          ∧ b'.rotation = b.rotation
          ∧ b'.position.x = b.position.x
          ∧ b'.position.z = b.position.z
          ∧ (intDraw % 2 ≠ 0 →
              b'.position.y = (intDraw : ℚ) * (-1)
              ∧ b'.scale = ⟨(factorDraw : ℚ)/3, (factorDraw : ℚ)/3,
                  (factorDraw : ℚ)/3⟩)
          ∧ (intDraw % 2 = 0 →
              b'.position.y = (intDraw : ℚ) ∧ b'.scale = b.scale) := by
  have hb : blocks[indexDraw]? = some blocks[indexDraw] :=
    List.getElem?_eq_getElem hidx
  by_cases hpar : intDraw % 2 = 0
  · refine ⟨blocks.set indexDraw
      (blocks[indexDraw].setPosition
        { blocks[indexDraw].position with y := (intDraw : ℚ) }),
      by simp [animateLeftFace, hb, hpar], by simp, ?_, ?_⟩
    · intro j hj
      simp [List.getElem?_set_ne (Ne.symm hj)]
    · exact ⟨blocks[indexDraw],
        blocks[indexDraw].setPosition
          { blocks[indexDraw].position with y := (intDraw : ℚ) }, hb,
        by simp [List.getElem?_set_self hidx],
        by simp, by simp, by simp, by simp, by simp,
        fun hodd => absurd hpar hodd,
        fun _ => ⟨by simp, by simp⟩⟩
  · refine ⟨blocks.set indexDraw
      ((blocks[indexDraw].setPosition
        { blocks[indexDraw].position with
            y := (intDraw : ℚ) * (-1) }).setScale
        ⟨(factorDraw : ℚ)/3, (factorDraw : ℚ)/3, (factorDraw : ℚ)/3⟩),
      by simp [animateLeftFace, hb, hpar], by simp, ?_, ?_⟩
    · intro j hj
      simp [List.getElem?_set_ne (Ne.symm hj)]
    · exact ⟨blocks[indexDraw],
        (blocks[indexDraw].setPosition
          { blocks[indexDraw].position with
              y := (intDraw : ℚ) * (-1) }).setScale
          ⟨(factorDraw : ℚ)/3, (factorDraw : ℚ)/3, (factorDraw : ℚ)/3⟩, hb,
        by simp [List.getElem?_set_self hidx],
        by simp, by simp, by simp, by simp, by simp,
        fun _ => ⟨by simp, by simp⟩,
        fun heven => absurd heven hpar⟩

/-! Helper lemmas for the face-loading counts (C4). -/

/-- A fallible loop body that adds `c` to a measure on every successful
iteration adds `c * k` over `k` iterations. -/
theorem loopUp_add {σ : Type} (f : ℕ → σ → Option σ) (μ : σ → ℕ) (c : ℕ)
    (h : ∀ i st st', f i st = some st' → μ st' = μ st + c) :
    ∀ k i st st', loopUp f i k st = some st' → μ st' = μ st + c * k := by
  intro k
  induction k with
  | zero =>
    intro i st st' hl
    simp only [loopUp, Option.some.injEq] at hl
    subst hl
    simp
  | succ k ih =>
    intro i st st' hl
    simp only [loopUp] at hl
    rw [Option.bind_eq_some] at hl
    obtain ⟨st1, hf, hrest⟩ := hl
    rw [ih (i+1) st1 st' hrest, h i st st1 hf, Nat.mul_succ]
    omega

/-- A fallible loop whose body respects a reflexive transitive relation
respects it over any number of iterations. -/
theorem loopUp_rel {σ : Type} (f : ℕ → σ → Option σ) (R : σ → σ → Prop)
    (hrefl : ∀ s, R s s)
    (htrans : ∀ a b c, R a b → R b c → R a c)
    (hstep : ∀ i st st', f i st = some st' → R st st') :
    ∀ k i st st', loopUp f i k st = some st' → R st st' := by
  intro k
  induction k with
  | zero =>
    intro i st st' hl
    simp only [loopUp, Option.some.injEq] at hl
    subst hl
    exact hrefl st
  | succ k ih =>
    intro i st st' hl
    simp only [loopUp] at hl
    rw [Option.bind_eq_some] at hl
    obtain ⟨st1, hf, hrest⟩ := hl
    exact htrans st st1 st' (hstep i st st1 hf) (ih (i+1) st1 st' hrest)

/-- Appending one element to group `i` of a list of groups raises the
total element count by one. -/
theorem sum_map_length_set :
    ∀ (l : List (List Node)) (i : ℕ) (g : List Node) (b : Node),
      l[i]? = some g →
      ((l.set i (g ++ [b])).map List.length).sum
        = (l.map List.length).sum + 1 := by
  intro l
  induction l with
  | nil => intro i g b h; simp at h
  | cons x xs ih =>
    intro i g b h
    cases i with
    | zero =>
      simp only [List.getElem?_cons_zero, Option.some.injEq] at h
      subst h
      simp [List.length_append]
      omega
    | succ i =>
      simp only [List.getElem?_cons_succ] at h
      simp only [List.set_cons_succ, List.map_cons, List.sum_cons]
      rw [ih i g b h]
      omega

/-- The collection bookkeeping shared by everything the front-face loop
bodies leave alone. -/
def FrontRest (a b : Assembly) : Prop :=
  b.blockVar = a.blockVar ∧ b.triangles = a.triangles
  ∧ b.blocks = a.blocks ∧ b.bars = a.bars ∧ b.diamonds = a.diamonds
  ∧ b.hexagons = a.hexagons ∧ b.planet = a.planet

theorem frontRest_refl (s : Assembly) : FrontRest s s :=
  ⟨rfl, rfl, rfl, rfl, rfl, rfl, rfl⟩

theorem frontRest_trans (a b c : Assembly)
    (h1 : FrontRest a b) (h2 : FrontRest b c) : FrontRest a c :=
  ⟨h2.1.trans h1.1, h2.2.1.trans h1.2.1, h2.2.2.1.trans h1.2.2.1,
   h2.2.2.2.1.trans h1.2.2.2.1, h2.2.2.2.2.1.trans h1.2.2.2.2.1,
   h2.2.2.2.2.2.1.trans h1.2.2.2.2.2.1,
   h2.2.2.2.2.2.2.trans h1.2.2.2.2.2.2⟩

theorem frontRingIterA_spec (fetch : String → Node) (piVal : ℚ) (i : ℕ)
    (s s' : Assembly) (h : frontRingIterA fetch piVal i s = some s') :
    s'.rings.length = s.rings.length + 1 ∧ FrontRest s s' := by
  unfold frontRingIterA at h
  simp only [Option.bind_eq_bind] at h
  rw [Option.bind_eq_some] at h
  obtain ⟨lip, hm, hsome⟩ := h
  simp only [Option.some.injEq] at hsome
  subst hsome
  exact ⟨by simp, frontRest_refl _⟩

theorem frontRingIterB_spec (fetch : String → Node) (piVal : ℚ) (i : ℕ)
    (s s' : Assembly) (h : frontRingIterB fetch piVal i s = some s') :
    s'.rings.length = s.rings.length + 1 ∧ FrontRest s s' := by
  unfold frontRingIterB at h
  simp only [Option.bind_eq_bind] at h
  rw [Option.bind_eq_some] at h
  obtain ⟨lip, hm, hsome⟩ := h
  simp only [Option.some.injEq] at hsome
  subst hsome
  exact ⟨by simp, frontRest_refl _⟩

theorem frontRingIterC_spec (fetch : String → Node) (piVal : ℚ) (i : ℕ)
    (s s' : Assembly) (h : frontRingIterC fetch piVal i s = some s') :
    s'.rings.length = s.rings.length + 1 ∧ FrontRest s s' := by
  unfold frontRingIterC at h
  simp only [Option.bind_eq_bind] at h
  rw [Option.bind_eq_some] at h
  obtain ⟨lip, hm, hsome⟩ := h
  simp only [Option.some.injEq] at hsome
  subst hsome
  exact ⟨by simp, frontRest_refl _⟩

theorem frontBody_spec (fetch : String → Node) (piVal : ℚ) (j : ℕ)
    (s s' : Assembly) (h : frontBody fetch piVal j s = some s') :
    s'.rings.length = s.rings.length + 10 ∧ FrontRest s s' := by
  unfold frontBody at h
  by_cases hj0 : j = 0
  · rw [if_pos hj0] at h
    refine ⟨?_, loopUp_rel _ FrontRest frontRest_refl frontRest_trans
      (fun i st st' hh => (frontRingIterA_spec fetch piVal i st st' hh).2)
      10 0 s s' h⟩
    have := loopUp_add (frontRingIterA fetch piVal)
      (fun a => a.rings.length) 1
      (fun i st st' hh => (frontRingIterA_spec fetch piVal i st st' hh).1)
      10 0 s s' h
    simp at this
    omega
  · rw [if_neg hj0] at h
    by_cases hj1 : j = 1
    · rw [if_pos hj1] at h
      refine ⟨?_, loopUp_rel _ FrontRest frontRest_refl frontRest_trans
        (fun i st st' hh =>
          (frontRingIterB_spec fetch piVal i st st' hh).2)
        10 0 s s' h⟩
      have := loopUp_add (frontRingIterB fetch piVal)
        (fun a => a.rings.length) 1
        (fun i st st' hh =>
          (frontRingIterB_spec fetch piVal i st st' hh).1)
        10 0 s s' h
      simp at this
      omega
    · rw [if_neg hj1] at h
      refine ⟨?_, loopUp_rel _ FrontRest frontRest_refl frontRest_trans
        (fun i st st' hh =>
          (frontRingIterC_spec fetch piVal i st st' hh).2)
        10 0 s s' h⟩
      have := loopUp_add (frontRingIterC fetch piVal)
        (fun a => a.rings.length) 1
        (fun i st st' hh =>
          (frontRingIterC_spec fetch piVal i st st' hh).1)
        10 0 s s' h
      simp at this
      omega

/-- `loadFrontFace` adds the block plus thirty rings and leaves every
other collection alone. -/
theorem loadFrontFace_spec (fetch : String → Node) (piVal : ℚ)
    (st st' : Assembly) (h : loadFrontFace fetch piVal st = some st') :
    st'.rings.length = st.rings.length + 30
    ∧ st'.blockVar.isSome = true
    ∧ st'.triangles = st.triangles ∧ st'.blocks = st.blocks
    ∧ st'.bars = st.bars ∧ st'.diamonds = st.diamonds
    ∧ st'.hexagons = st.hexagons ∧ st'.planet = st.planet := by
  unfold loadFrontFace at h
  simp only [Option.bind_eq_bind] at h
  rw [Option.bind_eq_some] at h
  obtain ⟨block, hb, h⟩ := h
  have hadd := loopUp_add (frontBody fetch piVal)
    (fun a => a.rings.length) 10
    (fun j st st' hh => (frontBody_spec fetch piVal j st st' hh).1)
    3 0 _ st' h
  have hrest := loopUp_rel (frontBody fetch piVal) FrontRest
    frontRest_refl frontRest_trans
    (fun j st st' hh => (frontBody_spec fetch piVal j st st' hh).2)
    3 0 _ st' h
  obtain ⟨hbv, htr, hbl, hba, hdi, hhe, hpl⟩ := hrest
  refine ⟨by simpa using hadd, ?_, by simpa using htr, by simpa using hbl,
    by simpa using hba, by simpa using hdi, by simpa using hhe,
    by simpa using hpl⟩
  rw [hbv]
  rfl

/-- What `loadBackFace` leaves alone. -/
def BackRest (a b : Assembly) : Prop :=
  b.rings = a.rings ∧ b.blockVar = a.blockVar
  ∧ b.blocks = a.blocks ∧ b.bars = a.bars ∧ b.diamonds = a.diamonds
  ∧ b.hexagons = a.hexagons ∧ b.planet = a.planet

theorem backRest_refl (s : Assembly) : BackRest s s :=
  ⟨rfl, rfl, rfl, rfl, rfl, rfl, rfl⟩

theorem backRest_trans (a b c : Assembly)
    (h1 : BackRest a b) (h2 : BackRest b c) : BackRest a c :=
  ⟨h2.1.trans h1.1, h2.2.1.trans h1.2.1, h2.2.2.1.trans h1.2.2.1,
   h2.2.2.2.1.trans h1.2.2.2.1, h2.2.2.2.2.1.trans h1.2.2.2.2.1,
   h2.2.2.2.2.2.1.trans h1.2.2.2.2.2.1,
   h2.2.2.2.2.2.2.trans h1.2.2.2.2.2.2⟩

theorem backIter_spec (fetch : String → Node) (i : ℕ)
    (s s' : Assembly) (h : backIter fetch i s = some s') :
    s'.triangles.length = s.triangles.length + 1 ∧ BackRest s s' := by
  unfold backIter at h
  simp only [Option.bind_eq_bind] at h
  rw [Option.bind_eq_some] at h
  obtain ⟨frame, hm, hsome⟩ := h
  simp only [Option.some.injEq] at hsome
  subst hsome
  exact ⟨by simp, backRest_refl _⟩

theorem loadBackFace_spec (fetch : String → Node)
    (st st' : Assembly) (h : loadBackFace fetch st = some st') :
    st'.triangles.length = st.triangles.length + 20 ∧ BackRest st st' := by
  unfold loadBackFace at h
  have hadd := loopUp_add (backIter fetch)
    (fun a => a.triangles.length) 1
    (fun i st st' hh => (backIter_spec fetch i st st' hh).1)
    20 0 st st' h
  exact ⟨by simpa using hadd,
    loopUp_rel _ BackRest backRest_refl backRest_trans
      (fun i st st' hh => (backIter_spec fetch i st st' hh).2)
      20 0 st st' h⟩

/-- What `loadLeftFace` leaves alone. -/
def LeftRest (a b : Assembly) : Prop :=
  b.rings = a.rings ∧ b.blockVar = a.blockVar
  ∧ b.triangles = a.triangles ∧ b.bars = a.bars ∧ b.diamonds = a.diamonds
  ∧ b.hexagons = a.hexagons ∧ b.planet = a.planet

theorem leftRest_refl (s : Assembly) : LeftRest s s :=
  ⟨rfl, rfl, rfl, rfl, rfl, rfl, rfl⟩

theorem leftRest_trans (a b c : Assembly)
    (h1 : LeftRest a b) (h2 : LeftRest b c) : LeftRest a c :=
  ⟨h2.1.trans h1.1, h2.2.1.trans h1.2.1, h2.2.2.1.trans h1.2.2.1,
   h2.2.2.2.1.trans h1.2.2.2.1, h2.2.2.2.2.1.trans h1.2.2.2.2.1,
   h2.2.2.2.2.2.1.trans h1.2.2.2.2.2.1,
   h2.2.2.2.2.2.2.trans h1.2.2.2.2.2.2⟩

theorem leftInner_spec (fetch : String → Node) (i j : ℕ)
    (s s' : Assembly) (h : leftInner fetch i j s = some s') :
    s'.blocks.length = s.blocks.length + 1 ∧ LeftRest s s' := by
  unfold leftInner at h
  simp only [Option.bind_eq_bind] at h
  rw [Option.bind_eq_some] at h
  obtain ⟨block, hm, hsome⟩ := h
  simp only [Option.some.injEq] at hsome
  subst hsome
  exact ⟨by simp, leftRest_refl _⟩

theorem leftOuter_spec (fetch : String → Node) (i : ℕ)
    (s s' : Assembly)
    (h : loopUp (leftInner fetch i) 0 5 s = some s') :
    s'.blocks.length = s.blocks.length + 5 ∧ LeftRest s s' := by
  have hadd := loopUp_add (leftInner fetch i)
    (fun a => a.blocks.length) 1
    (fun j st st' hh => (leftInner_spec fetch i j st st' hh).1)
    5 0 s s' h
  exact ⟨by simpa using hadd,
    loopUp_rel _ LeftRest leftRest_refl leftRest_trans
      (fun j st st' hh => (leftInner_spec fetch i j st st' hh).2)
      5 0 s s' h⟩

theorem loadLeftFace_spec (fetch : String → Node)
    (st st' : Assembly) (h : loadLeftFace fetch st = some st') :
    st'.blocks.length = st.blocks.length + 25 ∧ LeftRest st st' := by
  unfold loadLeftFace at h
  have hadd := loopUp_add
    (fun i st => loopUp (leftInner fetch i) 0 5 st)
    (fun a => a.blocks.length) 5
    (fun i st st' hh => (leftOuter_spec fetch i st st' hh).1)
    5 0 st st' h
  exact ⟨by simpa using hadd,
    loopUp_rel _ LeftRest leftRest_refl leftRest_trans
      (fun i st st' hh => (leftOuter_spec fetch i st st' hh).2)
      5 0 st st' h⟩

/-- What `loadRightFace` leaves alone. -/
def RightRest (a b : Assembly) : Prop :=
  b.rings = a.rings ∧ b.blockVar = a.blockVar
  ∧ b.triangles = a.triangles ∧ b.blocks = a.blocks
  ∧ b.diamonds = a.diamonds ∧ b.hexagons = a.hexagons
  ∧ b.planet = a.planet

theorem rightRest_refl (s : Assembly) : RightRest s s :=
  ⟨rfl, rfl, rfl, rfl, rfl, rfl, rfl⟩

theorem rightRest_trans (a b c : Assembly)
    (h1 : RightRest a b) (h2 : RightRest b c) : RightRest a c :=
  ⟨h2.1.trans h1.1, h2.2.1.trans h1.2.1, h2.2.2.1.trans h1.2.2.1,
   h2.2.2.2.1.trans h1.2.2.2.1, h2.2.2.2.2.1.trans h1.2.2.2.2.1,
   h2.2.2.2.2.2.1.trans h1.2.2.2.2.2.1,
   h2.2.2.2.2.2.2.trans h1.2.2.2.2.2.2⟩

theorem rightInner_spec (fetch : String → Node) (i j : ℕ)
    (s s' : Assembly) (h : rightInner fetch i j s = some s') :
    (s'.bars.map List.length).sum = (s.bars.map List.length).sum + 1
    ∧ RightRest s s' := by
  unfold rightInner at h
  simp only [Option.bind_eq_bind] at h
  rw [Option.bind_eq_some] at h
  obtain ⟨bar, hm, h⟩ := h
  simp only [Option.bind_eq_bind, Option.bind_eq_some, Option.some.injEq] at h
  obtain ⟨g, hg, hsome⟩ := h
  subst hsome
  exact ⟨sum_map_length_set s.bars i g bar hg, rightRest_refl _⟩

theorem rightOuter_spec (fetch : String → Node) (i : ℕ)
    (s s' : Assembly)
    (h : loopUp (rightInner fetch i) 0 4 s = some s') :
    (s'.bars.map List.length).sum = (s.bars.map List.length).sum + 4
    ∧ RightRest s s' := by
  have hadd := loopUp_add (rightInner fetch i)
    (fun a => (a.bars.map List.length).sum) 1
    (fun j st st' hh => (rightInner_spec fetch i j st st' hh).1)
    4 0 s s' h
  exact ⟨by simpa using hadd,
    loopUp_rel _ RightRest rightRest_refl rightRest_trans
      (fun j st st' hh => (rightInner_spec fetch i j st st' hh).2)
      4 0 s s' h⟩

theorem loadRightFace_spec (fetch : String → Node)
    (st st' : Assembly) (h : loadRightFace fetch st = some st') :
    (st'.bars.map List.length).sum = (st.bars.map List.length).sum + 12
    ∧ RightRest st st' := by
  unfold loadRightFace at h
  have hadd := loopUp_add
    (fun i st => loopUp (rightInner fetch i) 0 4 st)
    (fun a => (a.bars.map List.length).sum) 4
    (fun i st st' hh => (rightOuter_spec fetch i st st' hh).1)
    3 0 st st' h
  exact ⟨by simpa using hadd,
    loopUp_rel _ RightRest rightRest_refl rightRest_trans
      (fun i st st' hh => (rightOuter_spec fetch i st st' hh).2)
      3 0 st st' h⟩

/-- What the hexagon loop of `loadTopFace` leaves alone (on the
assembly part of its paired state). -/
def TopRest (a b : Assembly × Node) : Prop :=
  b.1.rings = a.1.rings ∧ b.1.blockVar = a.1.blockVar
  ∧ b.1.triangles = a.1.triangles ∧ b.1.blocks = a.1.blocks
  ∧ b.1.bars = a.1.bars ∧ b.1.diamonds = a.1.diamonds
  ∧ b.1.planet = a.1.planet

theorem topRest_refl (s : Assembly × Node) : TopRest s s :=
  ⟨rfl, rfl, rfl, rfl, rfl, rfl, rfl⟩

theorem topRest_trans (a b c : Assembly × Node)
    (h1 : TopRest a b) (h2 : TopRest b c) : TopRest a c :=
  ⟨h2.1.trans h1.1, h2.2.1.trans h1.2.1, h2.2.2.1.trans h1.2.2.1,
   h2.2.2.2.1.trans h1.2.2.2.1, h2.2.2.2.2.1.trans h1.2.2.2.2.1,
   h2.2.2.2.2.2.1.trans h1.2.2.2.2.2.1,
   h2.2.2.2.2.2.2.trans h1.2.2.2.2.2.2⟩

theorem topHexIter_spec (fetch : String → Node) (i : ℕ)
    (p p' : Assembly × Node) (h : topHexIter fetch i p = some p') :
    p'.1.hexagons.length = p.1.hexagons.length + 1 ∧ TopRest p p' := by
  unfold topHexIter at h
  simp only [Option.bind_eq_bind] at h
  rw [Option.bind_eq_some] at h
  obtain ⟨hexagon, hm, hsome⟩ := h
  simp only [Option.some.injEq] at hsome
  subst hsome
  exact ⟨by simp, topRest_refl _⟩

theorem loadTopFace_spec (fetch : String → Node)
    (st st' : Assembly) (h : loadTopFace fetch st = some st') :
    st'.diamonds.length = st.diamonds.length + 1
    ∧ st'.hexagons.length = st.hexagons.length + 8
    ∧ st'.rings = st.rings ∧ st'.blockVar = st.blockVar
    ∧ st'.triangles = st.triangles ∧ st'.blocks = st.blocks
    ∧ st'.bars = st.bars ∧ st'.planet = st.planet := by
  unfold loadTopFace at h
  simp only [Option.bind_eq_bind] at h
  rw [Option.bind_eq_some] at h
  obtain ⟨diamond, hd, h⟩ := h
  simp only [Option.bind_eq_bind, Option.bind_eq_some, Option.some.injEq] at h
  obtain ⟨p, hp, hsome⟩ := h
  subst hsome
  have hadd := loopUp_add (topHexIter fetch)
    (fun q => q.1.hexagons.length) 1
    (fun i q q' hh => (topHexIter_spec fetch i q q' hh).1)
    8 0 (st, diamond) p hp
  have hrest := loopUp_rel (topHexIter fetch) TopRest
    topRest_refl topRest_trans
    (fun i q q' hh => (topHexIter_spec fetch i q q' hh).2)
    8 0 (st, diamond) p hp
  obtain ⟨hri, hbv, htr, hbl, hba, hdi, hpl⟩ := hrest
  refine ⟨by simpa using congrArg List.length hdi, ?_,
    by simpa using hri, by simpa using hbv, by simpa using htr,
    by simpa using hbl, by simpa using hba, by simpa using hpl⟩
  simpa using hadd

theorem loadBottomFace_spec (fetch : String → Node)
    (st st' : Assembly) (h : loadBottomFace fetch st = some st') :
    st'.planet.isSome = true
    ∧ st'.rings = st.rings ∧ st'.blockVar = st.blockVar
    ∧ st'.triangles = st.triangles ∧ st'.blocks = st.blocks
    ∧ st'.bars = st.bars ∧ st'.diamonds = st.diamonds
    ∧ st'.hexagons = st.hexagons := by
  unfold loadBottomFace at h
  simp only [Option.bind_eq_bind] at h
  rw [Option.bind_eq_some] at h
  obtain ⟨planet, hm, h⟩ := h
  simp only [Option.bind_eq_bind, Option.bind_eq_some, Option.some.injEq] at h
  obtain ⟨c1, hc1, c10, hc10, m10, hm10, c1b, hc1b, c11, hc11, m11,
    hm11, hsome⟩ := h
  subst hsome
  exact ⟨rfl, rfl, rfl, rfl, rfl, rfl, rfl, rfl⟩

/-- C4: whenever the six face-loading routines all resolve, the
per-face collections hold exactly the advertised node counts:
front = 1 block + 30 rings, back = 20 triangles, left = 25 blocks,
right = 12 bars (in three groups), top = 1 diamond + 8 hexagons,
bottom = 1 planet. -/
theorem runAllFaces_counts (fetch : String → Node) (piVal : ℚ)
    (st' : Assembly) (h : runAllFaces fetch piVal = some st') :
    st'.blockVar.isSome = true
    ∧ st'.rings.length = 30
    ∧ st'.triangles.length = 20
    ∧ st'.blocks.length = 25
    ∧ (st'.bars.map List.length).sum = 12
    ∧ st'.diamonds.length = 1
    ∧ st'.hexagons.length = 8
    ∧ st'.planet.isSome = true := by
  unfold runAllFaces at h
  simp only [Option.bind_eq_bind] at h
  rw [Option.bind_eq_some] at h
  obtain ⟨s1, h1, h⟩ := h
  rw [Option.bind_eq_some] at h
  obtain ⟨s2, h2, h⟩ := h
  rw [Option.bind_eq_some] at h
  obtain ⟨s3, h3, h⟩ := h
  rw [Option.bind_eq_some] at h
  obtain ⟨s4, h4, h⟩ := h
  rw [Option.bind_eq_some] at h
  obtain ⟨s5, h5, h6⟩ := h
  obtain ⟨f1, f2, f3, f4, f5, f6, f7, f8⟩ :=
    loadFrontFace_spec fetch piVal Assembly.init s1 h1
  obtain ⟨l1, l2, l3, l4, l5, l6, l7, l8⟩ := loadLeftFace_spec fetch s1 s2 h2
  obtain ⟨r1, r2, r3, r4, r5, r6, r7, r8⟩ := loadRightFace_spec fetch s2 s3 h3
  obtain ⟨b1, b2, b3, b4, b5, b6, b7, b8⟩ := loadBackFace_spec fetch s3 s4 h4
  obtain ⟨t1, t2, t3, t4, t5, t6, t7, t8⟩ := loadTopFace_spec fetch s4 s5 h5
  obtain ⟨p1, p2, p3, p4, p5, p6, p7, p8⟩ :=
    loadBottomFace_spec fetch s5 st' h6
  refine ⟨?_, ?_, ?_, ?_, ?_, ?_, ?_, p1⟩
  · rw [p3, t4, b3, r3, l3]; exact f2
  · rw [p2, t3, b2, r2, l2, f1]; rfl
  · rw [p4, t5, b1, r4, l4, f3]; rfl
  · rw [p5, t6, b4, r5, l1, f4]; rfl
  · rw [p6, t7, b5, r1, l5, f5]; rfl
  · rw [p7, t1, b6, r6, l6, f6]; rfl
  · rw [p8, t2, b7, r7, l7, f7]; rfl

/-- Witness for C4: a loader stub on which every face routine resolves,
run through the whole batch. -/
theorem runAllFaces_counts_witness :
    ∃ st', runAllFaces constFetch 0 = some st'
      ∧ (st'.blockVar.isSome = true
        ∧ st'.rings.length = 30
        ∧ st'.triangles.length = 20
        ∧ st'.blocks.length = 25
        ∧ (st'.bars.map List.length).sum = 12
        ∧ st'.diamonds.length = 1
        ∧ st'.hexagons.length = 8
        ∧ st'.planet.isSome = true) := by
  have hs : (runAllFaces constFetch 0).isSome = true := by decide
  obtain ⟨st', hr⟩ := Option.isSome_iff_exists.mp hs
  exact ⟨st', hr, runAllFaces_counts constFetch 0 st' hr⟩

/-! Helper lemmas for the build-phase ordering (C2). -/

theorem length_le_sum_of_mem {α : Type} :
    ∀ (l : List (List α)) (t : List α), t ∈ l →
      t.length ≤ (l.map List.length).sum := by
  intro l
  induction l with
  | nil => intro t ht; simp at ht
  | cons x xs ih =>
    intro t ht
    rcases List.mem_cons.mp ht with rfl | ht
    · simp
    · have := ih t ht
      simp only [List.map_cons, List.sum_cons]
      omega

theorem flatten_filter_mem {α : Type} (l : List (List α)) (e : α) :
    e ∈ (l.filter (fun t => !t.isEmpty)).flatten ↔ e ∈ l.flatten := by
  simp only [List.mem_flatten, List.mem_filter]
  constructor
  · rintro ⟨t, ⟨ht, _⟩, het⟩
    exact ⟨t, ht, het⟩
  · rintro ⟨t, ht, het⟩
    refine ⟨t, ⟨ht, ?_⟩, het⟩
    cases t with
    | nil => simp at het
    | cons a s => simp

theorem sum_lengths_filter {α : Type} (l : List (List α)) :
    ((l.filter (fun t => !t.isEmpty)).map List.length).sum
      = (l.map List.length).sum := by
  induction l with
  | nil => rfl
  | cons x xs ih =>
    cases x with
    | nil => simpa [List.filter_cons] using ih
    | cons a s => simp [List.filter_cons, ih]

theorem list_decomp_of_getElem? {α : Type} (l : List α) (k : ℕ) (x : α)
    (hk : l[k]? = some x) : l = l.take k ++ x :: l.drop (k+1) := by
  obtain ⟨hlt, hget⟩ := List.getElem?_eq_some_iff.mp hk
  conv_lhs => rw [← List.take_append_drop k l,
    List.drop_eq_getElem_cons hlt, hget]

theorem set_decomp_of_lt {α : Type} (l : List α) (k : ℕ) (y : α)
    (hlt : k < l.length) :
    l.set k y = l.take k ++ y :: l.drop (k+1) := by
  rw [List.set_eq_take_append_cons_drop, if_pos hlt]

theorem flatten_set_subset {α : Type} (l : List (List α)) (k : ℕ)
    (x r : List α) (hk : l[k]? = some x) (hr : ∀ e ∈ r, e ∈ x) :
    ∀ e ∈ (l.set k r).flatten, e ∈ l.flatten := by
  intro e he
  rw [List.mem_flatten] at he ⊢
  obtain ⟨t, ht, het⟩ := he
  rcases List.mem_or_eq_of_mem_set ht with h | h
  · exact ⟨t, h, het⟩
  · subst h
    exact ⟨x, List.getElem?_mem hk, hr e het⟩

theorem flatten_set_cases {α : Type} (l : List (List α)) (k : ℕ)
    (e0 : α) (rest : List α) (hk : l[k]? = some (e0 :: rest)) (e : α)
    (he : e ∈ l.flatten) : e = e0 ∨ e ∈ (l.set k rest).flatten := by
  have hlt : k < l.length := (List.getElem?_eq_some_iff.mp hk).1
  rw [set_decomp_of_lt l k rest hlt]
  rw [list_decomp_of_getElem? l k (e0 :: rest) hk] at he
  simp only [List.flatten_append, List.flatten_cons, List.mem_append,
    List.mem_cons] at he ⊢
  tauto

theorem sum_lengths_set_cons {α : Type} (l : List (List α)) (k : ℕ)
    (e0 : α) (rest : List α) (hk : l[k]? = some (e0 :: rest)) :
    ((l.set k rest).map List.length).sum + 1 = (l.map List.length).sum := by
  have hlt : k < l.length := (List.getElem?_eq_some_iff.mp hk).1
  rw [set_decomp_of_lt l k rest hlt]
  conv_rhs => rw [list_decomp_of_getElem? l k (e0 :: rest) hk]
  simp [List.map_append, List.sum_append]
  omega

/-- Every event the scheduler emits came from one of the face tasks. -/
theorem runTasks_sub :
    ∀ (fuel : ℕ) (sched : ℕ → ℕ) (tasks : List (List BuildEv))
      (e : BuildEv), e ∈ runTasks fuel sched tasks → e ∈ tasks.flatten := by
  intro fuel
  induction fuel with
  | zero => intro sched tasks e he; simp [runTasks] at he
  | succ fuel ih =>
    intro sched tasks e he
    simp only [runTasks] at he
    split at he
    · rename_i e0 rest htk
      rcases List.mem_cons.mp he with rfl | he
      · exact (flatten_filter_mem tasks e).mp
          (List.mem_flatten_of_mem (List.getElem?_mem htk)
            (List.mem_cons_self _ _))
      · have hrec := ih sched _ e he
        exact (flatten_filter_mem tasks e).mp
          (flatten_set_subset _ _ (e0 :: rest) rest htk
            (fun x hx => List.mem_cons_of_mem _ hx) e hrec)
    · simp at he

/-- With fuel at least the number of pending events, the scheduler
drains every task completely, whatever the schedule: this is the
`Promise.all` completion barrier. -/
theorem runTasks_complete :
    ∀ (fuel : ℕ) (sched : ℕ → ℕ) (tasks : List (List BuildEv)),
      (tasks.map List.length).sum ≤ fuel →
      ∀ e ∈ tasks.flatten, e ∈ runTasks fuel sched tasks := by
  intro fuel
  induction fuel with
  | zero =>
    intro sched tasks hsum e he
    exfalso
    rw [List.mem_flatten] at he
    obtain ⟨t, ht, het⟩ := he
    have hle := length_le_sum_of_mem tasks t ht
    cases t with
    | nil => simp at het
    | cons a s => simp at hle; omega
  | succ fuel ih =>
    intro sched tasks hsum e he
    simp only [runTasks]
    set live := tasks.filter (fun t => !t.isEmpty) with hlive
    set k := sched fuel % live.length with hk
    have helive : e ∈ live.flatten := (flatten_filter_mem tasks e).mpr he
    have hlen0 : live.length ≠ 0 := by
      intro h0
      rw [List.length_eq_zero] at h0
      rw [h0] at helive
      simp at helive
    have hklt : k < live.length := Nat.mod_lt _ (Nat.pos_of_ne_zero hlen0)
    have htk : live[k]? = some live[k] := List.getElem?_eq_getElem hklt
    have htkne : live[k] ≠ [] := by
      have hm : live[k] ∈ live := List.getElem?_mem htk
      have hm2 := List.mem_filter.mp hm
      simpa using hm2.2
    obtain ⟨e0, rest, hcons⟩ : ∃ e0 rest, live[k] = e0 :: rest := by
      cases hc : live[k] with
      | nil => exact absurd hc htkne
      | cons a s => exact ⟨a, s, rfl⟩
    rw [hcons] at htk
    rw [htk]
    show e ∈ e0 :: runTasks fuel sched (live.set k rest)
    rcases flatten_set_cases live k e0 rest htk e helive with he0 | hrec
    · rw [he0]; exact List.mem_cons_self _ _
    · refine List.mem_cons_of_mem e0 (ih sched (live.set k rest) ?_ e hrec)
      have h1 := sum_lengths_set_cons live k e0 rest htk
      have h2 := sum_lengths_filter tasks
      rw [← hlive] at h2
      omega

/-- C2: in every run of `build_with_custom_models`, whatever order the
scheduler completes the in-flight loads in: the cube frame's load and
its `scene.add` are the first two events; every face-routine event comes
after them; each of the six face routines resolves strictly before the
first `render()` call; and `render()` starts exactly once, as the very
last event of the build phase. -/
theorem buildTrace_ordering (sched : ℕ → ℕ) :
    (buildTrace sched)[0]? = some .rootLoaded
    ∧ (buildTrace sched)[1]? = some .rootAdded
    ∧ (∀ i : ℕ, ∀ f : Face,
        ((buildTrace sched)[i]? = some (.faceLoad f)
          ∨ (buildTrace sched)[i]? = some (.faceDone f)) → 2 ≤ i)
    ∧ (∀ f : Face, ∃ i : ℕ, 2 ≤ i ∧ i < (buildTrace sched).length - 1
        ∧ (buildTrace sched)[i]? = some (.faceDone f))
    ∧ (buildTrace sched)[(buildTrace sched).length - 1]?
        = some .renderStart
    ∧ (∀ i : ℕ, (buildTrace sched)[i]? = some .renderStart
        → i = (buildTrace sched).length - 1) := by
  have htr : buildTrace sched = .rootLoaded :: .rootAdded ::
      (runTasks totalFuel sched allFaceTasks ++ [.renderStart]) := rfl
  set mid := runTasks totalFuel sched allFaceTasks with hmid
  have hlen : (buildTrace sched).length = mid.length + 3 := by
    rw [htr]; simp
  refine ⟨by simp [htr], by simp [htr], ?_, ?_, ?_, ?_⟩
  · intro i f hf
    by_contra hlt2
    push_neg at hlt2
    interval_cases i <;> rcases hf with hf | hf <;> simp [htr] at hf
  · intro f
    have h1 : BuildEv.faceDone f ∈ faceTask f := by simp [faceTask]
    have h2 : faceTask f ∈ allFaceTasks := by
      cases f <;> simp [allFaceTasks]
    have hmem : BuildEv.faceDone f ∈ mid :=
      runTasks_complete totalFuel sched allFaceTasks (le_refl _) _
        (List.mem_flatten_of_mem h2 h1)
    obtain ⟨j, hj⟩ := List.getElem?_of_mem hmem
    have hjlt : j < mid.length := (List.getElem?_eq_some_iff.mp hj).1
    refine ⟨j + 2, by omega, by rw [hlen]; omega, ?_⟩
    rw [htr]
    simp only [List.getElem?_cons_succ]
    rw [List.getElem?_append_left hjlt]
    exact hj
  · rw [hlen]
    have h32 : mid.length + 3 - 1 = mid.length + 2 := by omega
    rw [h32, htr]
    simp only [List.getElem?_cons_succ]
    rw [List.getElem?_append_right (le_refl _)]
    simp
  · intro i hi
    rcases i with _ | _ | j
    · rw [htr] at hi
      simp at hi
    · rw [htr] at hi
      simp at hi
    · rw [htr] at hi
      simp only [List.getElem?_cons_succ] at hi
      by_cases hj : j < mid.length
      · rw [List.getElem?_append_left hj] at hi
        have hm : BuildEv.renderStart ∈ mid := List.getElem?_mem hi
        have h2 : BuildEv.renderStart ∈ allFaceTasks.flatten :=
          runTasks_sub totalFuel sched allFaceTasks _ hm
        exact absurd h2 (by decide)
      · push_neg at hj
        rw [List.getElem?_append_right hj] at hi
        have hlt1 : j - mid.length < 1 := by
          have := (List.getElem?_eq_some_iff.mp hi).1
          simpa using this
        rw [hlen]
        omega

/-! Helper lemmas for the back-face oscillation (C3). -/

theorem flipDir_idem (z d : ℚ) : flipDir z (flipDir z d) = flipDir z d := by
  unfold flipDir
  split_ifs <;> rfl

theorem flipDir_cases (z d : ℚ) :
    flipDir z d = -4 ∨ flipDir z d = 1 ∨ flipDir z d = d := by
  unfold flipDir
  split_ifs <;> simp

theorem flipDir_of_le (z : ℚ) (h : z ≤ 25) : flipDir z 1 = 1 := by
  unfold flipDir
  rw [if_neg (by linarith)]
  split_ifs <;> rfl

theorem le_of_flipDir_one (z d : ℚ) (h : flipDir z d = 1) : z ≤ 25 := by
  by_contra hz
  push_neg at hz
  unfold flipDir at h
  rw [if_pos hz] at h
  norm_num at h

theorem ge_of_flipDir_neg (z d : ℚ) (h : flipDir z d = -4) :
    -8.5 ≤ z := by
  by_contra hz
  push_neg at hz
  unfold flipDir at h
  rw [if_neg (by linarith), if_pos hz] at h
  norm_num at h

/-- Iterations `i ≠ length-1` of `animateBackFace` leave the last
triangle's z-position alone: the mid-loop re-check reads the stale last
position, so it only re-applies the same flip. -/
theorem backStep_of_ne (s : BackState) (i : ℕ)
    (h : i ≠ s.triangles.length - 1) :
    (backStep s i).triangles.length = s.triangles.length
    ∧ lastZ (backStep s i) = lastZ s
    ∧ (backStep s i).direction = flipDir (lastZ s) s.direction := by
  have hz : ∀ t2 : Node,
      ((s.triangles.set i t2).getD (s.triangles.length - 1) nodeDefault)
        = s.triangles.getD (s.triangles.length - 1) nodeDefault := by
    intro t2
    rw [List.getD_eq_getElem?_getD, List.getD_eq_getElem?_getD,
      List.getElem?_set_ne h]
  refine ⟨by simp [backStep], ?_, ?_⟩
  · unfold lastZ backStep
    simp only [List.length_set]
    rw [hz]
  · unfold backStep flipDir
    simp only [List.length_set]
    rw [hz]
    rfl

/-- The final iteration moves the last triangle by
`(length-1)/300 * direction` and then flips on the new position. -/
theorem backStep_last (s : BackState) (hne : s.triangles.length ≠ 0) :
    (backStep s (s.triangles.length - 1)).triangles.length
        = s.triangles.length
    ∧ lastZ (backStep s (s.triangles.length - 1))
        = lastZ s + ((s.triangles.length - 1 : ℕ) : ℚ)/300 * s.direction
    ∧ (backStep s (s.triangles.length - 1)).direction
        = flipDir (lastZ s
            + ((s.triangles.length - 1 : ℕ) : ℚ)/300 * s.direction)
            s.direction := by
  have hlt : s.triangles.length - 1 < s.triangles.length := by omega
  have hsets : ∀ t2 : Node,
      ((s.triangles.set (s.triangles.length - 1) t2).getD
        (s.triangles.length - 1) nodeDefault) = t2 := by
    intro t2
    rw [List.getD_eq_getElem?_getD, List.getElem?_set_self hlt]
    rfl
  refine ⟨by simp [backStep], ?_, ?_⟩
  · unfold lastZ backStep
    simp only [List.length_set]
    rw [hsets]
    simp [lastZ]
  · unfold backStep flipDir
    simp only [List.length_set]
    rw [hsets]
    simp [lastZ]

/-- The first `k ≤ length-1` iterations keep the last z-position and,
as soon as one has run, set the direction to the (idempotent) flip of
the stale last position. -/
theorem foldl_backStep_stale (s : BackState) :
    ∀ k : ℕ, k ≤ s.triangles.length - 1 →
      ((List.range k).foldl backStep s).triangles.length
          = s.triangles.length
      ∧ lastZ ((List.range k).foldl backStep s) = lastZ s
      ∧ ((List.range k).foldl backStep s).direction
          = if k = 0 then s.direction
            else flipDir (lastZ s) s.direction := by
  intro k
  induction k with
  | zero => intro _; simp
  | succ k ih =>
    intro hk
    obtain ⟨hL, hZ, hD⟩ := ih (by omega)
    rw [List.range_succ, List.foldl_append]
    simp only [List.foldl_cons, List.foldl_nil]
    set r := (List.range k).foldl backStep s with hr
    have hne : k ≠ r.triangles.length - 1 := by rw [hL]; omega
    obtain ⟨bL, bZ, bD⟩ := backStep_of_ne r k hne
    refine ⟨by rw [bL, hL], by rw [bZ, hZ], ?_⟩
    rw [bD, hZ, hD]
    rcases Nat.eq_zero_or_pos k with hk0 | hk0
    · subst hk0; simp
    · rw [if_neg (by omega), if_neg (by omega)]
      exact flipDir_idem _ _

/-- One whole frame of `animateBackFace` on a 20-triangle collection
acts on `(lastZ, direction)` exactly as `zdStep`. -/
theorem animateBackFace_zd (s : BackState)
    (hlen : s.triangles.length = 20) :
    (animateBackFace s).triangles.length = 20
    ∧ (lastZ (animateBackFace s), (animateBackFace s).direction)
        = zdStep (lastZ s, s.direction) := by
  unfold animateBackFace
  rw [hlen]
  rw [show (20 : ℕ) = 19 + 1 from rfl, List.range_succ, List.foldl_append]
  simp only [List.foldl_cons, List.foldl_nil]
  obtain ⟨hL, hZ, hD⟩ := foldl_backStep_stale s 19 (by omega)
  set r := (List.range 19).foldl backStep s with hr
  have hner : r.triangles.length ≠ 0 := by rw [hL, hlen]; omega
  have hr19 : r.triangles.length - 1 = 19 := by rw [hL, hlen]
  obtain ⟨bL, bZ, bD⟩ := backStep_last r hner
  rw [hr19] at bL bZ bD
  refine ⟨by rw [bL, hL, hlen], ?_⟩
  rw [bZ, bD, hZ, hD]
  rw [if_neg (by omega)]
  simp only [zdStep]
  norm_num

/-- Iterating frames projects onto iterating `zdStep`. -/
theorem iterate_back_zd (s₀ : BackState)
    (hlen : s₀.triangles.length = 20) :
    ∀ n : ℕ, (animateBackFace^[n] s₀).triangles.length = 20
      ∧ (lastZ (animateBackFace^[n] s₀),
          (animateBackFace^[n] s₀).direction)
          = zdStep^[n] (lastZ s₀, s₀.direction) := by
  intro n
  induction n with
  | zero => exact ⟨hlen, rfl⟩
  | succ n ih =>
    obtain ⟨hL, hP⟩ := ih
    rw [Function.iterate_succ_apply', Function.iterate_succ_apply']
    obtain ⟨aL, aP⟩ := animateBackFace_zd _ hL
    exact ⟨aL, by rw [aP, hP]⟩

theorem zd_dir_mem (p : ℚ × ℚ) (h : p.2 = 1 ∨ p.2 = -4) :
    (zdStep p).2 = 1 ∨ (zdStep p).2 = -4 := by
  have h2 := flipDir_cases (p.1 + 19/300 * flipDir p.1 p.2)
    (flipDir p.1 p.2)
  have h1 := flipDir_cases p.1 p.2
  simp only [zdStep]
  rcases h2 with h2 | h2 | h2
  · exact Or.inr h2
  · exact Or.inl h2
  · rw [h2]
    rcases h1 with h1 | h1 | h1
    · exact Or.inr h1
    · exact Or.inl h1
    · rw [h1]; exact h

theorem zd_upper (p : ℚ × ℚ) (hd : p.2 = 1 ∨ p.2 = -4)
    (hu : p.1 ≤ 25 + 19/300) : (zdStep p).1 ≤ 25 + 19/300 := by
  simp only [zdStep]
  rcases flipDir_cases p.1 p.2 with h1 | h1 | h1
  · rw [h1]; linarith
  · rw [h1]
    have := le_of_flipDir_one p.1 p.2 h1
    linarith
  · rw [h1]
    rcases hd with hd | hd
    · rw [hd]
      have h25 : p.1 ≤ 25 := le_of_flipDir_one p.1 p.2 (h1.trans hd)
      linarith
    · rw [hd]; linarith

theorem zd_lower (p : ℚ × ℚ) (hd : p.2 = 1 ∨ p.2 = -4)
    (hl : -8.5 - 19/75 ≤ p.1) : -8.5 - 19/75 ≤ (zdStep p).1 := by
  simp only [zdStep]
  rcases flipDir_cases p.1 p.2 with h1 | h1 | h1
  · rw [h1]
    have := ge_of_flipDir_neg p.1 p.2 h1
    linarith
  · rw [h1]; linarith
  · rw [h1]
    rcases hd with hd | hd
    · rw [hd]; linarith
    · rw [hd]
      have := ge_of_flipDir_neg p.1 p.2 (h1.trans hd)
      linarith

theorem zd_low_phase (p : ℚ × ℚ) (h : p.1 < -8.5) :
    zdStep p = (p.1 + 19/300, 1) := by
  have hd1 : flipDir p.1 p.2 = 1 := by
    unfold flipDir
    rw [if_neg (by linarith), if_pos h]
  simp only [zdStep, hd1]
  rw [flipDir_of_le _ (by linarith)]
  norm_num

theorem zd_consistent (p : ℚ × ℚ) (_h : flipDir p.1 p.2 = p.2) :
    flipDir (zdStep p).1 (zdStep p).2 = (zdStep p).2 := by
  simp only [zdStep]
  exact flipDir_idem _ _

/-- Invariants of the `(lastZ, direction)` dynamics from any start
`(z₀, 1)` with `z₀ ≤ 25`: the direction stays in `{1, -4}`, the
position never exceeds `25 + 19/300`, the direction always equals the
flip of the current position (so flips happen exactly at the
thresholds), and the position is either already above the lower bound
or still in the initial monotone climb `z₀ + n·19/300`. -/
theorem zseq_invariants (z₀ : ℚ) (hz : z₀ ≤ 25) :
    ∀ n : ℕ,
      ((zdStep^[n] (z₀, 1)).2 = 1 ∨ (zdStep^[n] (z₀, 1)).2 = -4)
      ∧ (zdStep^[n] (z₀, 1)).1 ≤ 25 + 19/300
      ∧ flipDir (zdStep^[n] (z₀, 1)).1 (zdStep^[n] (z₀, 1)).2
          = (zdStep^[n] (z₀, 1)).2
      ∧ (-8.5 - 19/75 ≤ (zdStep^[n] (z₀, 1)).1
          ∨ ((zdStep^[n] (z₀, 1)).1 = z₀ + n * (19/300)
              ∧ (zdStep^[n] (z₀, 1)).2 = 1)) := by
  intro n
  induction n with
  | zero =>
    refine ⟨Or.inl rfl, by simpa using by linarith, ?_, ?_⟩
    · simpa using flipDir_of_le z₀ hz
    · by_cases h0 : -8.5 - 19/75 ≤ z₀
      · exact Or.inl (by simpa using h0)
      · exact Or.inr ⟨by simp, rfl⟩
  | succ n ih =>
    obtain ⟨ihd, ihu, ihc, ihl⟩ := ih
    rw [Function.iterate_succ_apply']
    refine ⟨zd_dir_mem _ ihd, zd_upper _ ihd ihu, zd_consistent _ ihc, ?_⟩
    rcases ihl with ihl | ⟨ihz, ihd1⟩
    · exact Or.inl (zd_lower _ ihd ihl)
    · by_cases hq : -8.5 - 19/75 ≤ (zdStep^[n] (z₀, 1)).1
      · exact Or.inl (zd_lower _ ihd hq)
      · push_neg at hq
        have hlow : (zdStep^[n] (z₀, 1)).1 < -8.5 := by linarith
        rw [zd_low_phase _ hlow]
        refine Or.inr ⟨?_, rfl⟩
        rw [show ((zdStep^[n] (z₀, 1)).1 + 19/300, (1:ℚ)).1
          = (zdStep^[n] (z₀, 1)).1 + 19/300 from rfl, ihz]
        push_cast
        ring

/-- After finitely many frames the climb phase is over and the position
stays above `-8.5 - 19/75` forever. -/
theorem zseq_eventual_lower (z₀ : ℚ) (hz : z₀ ≤ 25) :
    ∃ N : ℕ, ∀ n : ℕ, N ≤ n →
      -8.5 - 19/75 ≤ (zdStep^[n] (z₀, 1)).1 := by
  obtain ⟨N, hN⟩ := exists_nat_ge ((-8.5 - 19/75 - z₀) * (300/19))
  refine ⟨N, fun n hn => ?_⟩
  rcases (zseq_invariants z₀ hz n).2.2.2 with h | ⟨hzn, _⟩
  · exact h
  · rw [hzn]
    have hcast : (N : ℚ) ≤ (n : ℚ) := Nat.cast_le.mpr hn
    have h1 : (-8.5 - 19/75 - z₀) * (300/19) ≤ (n : ℚ) := by linarith
    have h2 : -8.5 - 19/75 - z₀ ≤ (n : ℚ) * (19/300) := by linarith
    linarith

/-- C3: for the back-face animator on its 20-triangle collection,
starting with the last triangle's z-position at most 25 and
`direction = 1`: the direction stays in `{1, -4}` forever; after each
frame the direction is `-4` exactly when the new last z-position exceeds
25, flips back to `1` exactly when it has dropped below `-8.5`, and is
otherwise unchanged; the last z-position never exceeds `25 + 19/300`
(one upward step); and from some frame on it stays above
`-8.5 - 19/75` (one downward step). -/
theorem animateBackFace_oscillation (s₀ : BackState)
    (hlen : s₀.triangles.length = 20) (hdir : s₀.direction = 1)
    (hz : lastZ s₀ ≤ 25) :
    (∀ n : ℕ, (animateBackFace^[n] s₀).direction = 1
        ∨ (animateBackFace^[n] s₀).direction = -4)
    ∧ (∀ n : ℕ, (animateBackFace^[n+1] s₀).direction
        = if lastZ (animateBackFace^[n+1] s₀) > 25 then -4
          else if lastZ (animateBackFace^[n+1] s₀) < -8.5 then 1
          else (animateBackFace^[n] s₀).direction)
    ∧ (∀ n : ℕ, lastZ (animateBackFace^[n] s₀) ≤ 25 + 19/300)
    ∧ (∃ N : ℕ, ∀ n : ℕ, N ≤ n →
        -8.5 - 19/75 ≤ lastZ (animateBackFace^[n] s₀)) := by
  have hproj : ∀ n : ℕ,
      lastZ (animateBackFace^[n] s₀) = (zdStep^[n] (lastZ s₀, 1)).1
      ∧ (animateBackFace^[n] s₀).direction
          = (zdStep^[n] (lastZ s₀, 1)).2 := by
    intro n
    have h := (iterate_back_zd s₀ hlen n).2
    rw [hdir] at h
    exact ⟨congrArg Prod.fst h, congrArg Prod.snd h⟩
  refine ⟨?_, ?_, ?_, ?_⟩
  · intro n
    rw [(hproj n).2]
    exact (zseq_invariants (lastZ s₀) hz n).1
  · intro n
    rw [(hproj (n+1)).1, (hproj (n+1)).2, (hproj n).2]
    show (zdStep^[n+1] (lastZ s₀, 1)).2
      = flipDir (zdStep^[n+1] (lastZ s₀, 1)).1 (zdStep^[n] (lastZ s₀, 1)).2
    rw [Function.iterate_succ_apply']
    have hc := (zseq_invariants (lastZ s₀) hz n).2.2.1
    calc (zdStep (zdStep^[n] (lastZ s₀, 1))).2
        = flipDir (zdStep (zdStep^[n] (lastZ s₀, 1))).1
            (flipDir (zdStep^[n] (lastZ s₀, 1)).1
              (zdStep^[n] (lastZ s₀, 1)).2) := by
          simp only [zdStep]
      _ = flipDir (zdStep (zdStep^[n] (lastZ s₀, 1))).1
            (zdStep^[n] (lastZ s₀, 1)).2 := by rw [hc]
  · intro n
    rw [(hproj n).1]
    exact (zseq_invariants (lastZ s₀) hz n).2.1
  · obtain ⟨N, hN⟩ := zseq_eventual_lower (lastZ s₀) hz
    exact ⟨N, fun n hn => by rw [(hproj n).1]; exact hN n hn⟩

/-- Witness for C3 at the collection `loadBackFace` actually builds
(twenty triangles at z = -2.5, direction 1). -/
theorem animateBackFace_oscillation_witness :
    backInit.triangles.length = 20 ∧ backInit.direction = 1
    ∧ lastZ backInit ≤ 25
    ∧ ((∀ n : ℕ, (animateBackFace^[n] backInit).direction = 1
          ∨ (animateBackFace^[n] backInit).direction = -4)
      ∧ (∀ n : ℕ, (animateBackFace^[n+1] backInit).direction
          = if lastZ (animateBackFace^[n+1] backInit) > 25 then -4
            else if lastZ (animateBackFace^[n+1] backInit) < -8.5 then 1
            else (animateBackFace^[n] backInit).direction)
      ∧ (∀ n : ℕ, lastZ (animateBackFace^[n] backInit) ≤ 25 + 19/300)
      ∧ (∃ N : ℕ, ∀ n : ℕ, N ≤ n →
          -8.5 - 19/75 ≤ lastZ (animateBackFace^[n] backInit))) :=
  ⟨by simp [backInit], rfl, by norm_num [lastZ, backInit, nodeDefault, Node.position],
    animateBackFace_oscillation backInit (by simp [backInit]) rfl
      (by norm_num [lastZ, backInit, nodeDefault, Node.position])⟩

/-- Witness for C7 on a concrete 25-block collection with an odd draw. -/
theorem animateLeftFace_one_block_witness :
    3 < 4 ∧ 11 < (List.replicate 25 nodeDefault).length
    ∧ ∃ blocks',
      animateLeftFace (List.replicate 25 nodeDefault) 3 7 11 = some blocks'
      ∧ blocks'.length = (List.replicate 25 nodeDefault).length
      ∧ (∀ j : ℕ, j ≠ 11 →
          blocks'[j]? = (List.replicate 25 nodeDefault)[j]?)
      ∧ ∃ b b', (List.replicate 25 nodeDefault)[11]? = some b
          ∧ blocks'[11]? = some b'
          ∧ b'.material = b.material
          ∧ b'.children = b.children
          ∧ b'.rotation = b.rotation
          ∧ b'.position.x = b.position.x
          ∧ b'.position.z = b.position.z
          ∧ (3 % 2 ≠ 0 →
              b'.position.y = ((3:ℕ) : ℚ) * (-1)
              ∧ b'.scale = ⟨((7:ℕ) : ℚ)/3, ((7:ℕ) : ℚ)/3, ((7:ℕ) : ℚ)/3⟩)
          ∧ (3 % 2 = 0 →
              b'.position.y = ((3:ℕ) : ℚ) ∧ b'.scale = b.scale) :=
  ⟨by decide, by simp,
    animateLeftFace_one_block (List.replicate 25 nodeDefault) 3 7 11
      (by decide) (by simp)⟩

end CubeEngine
